import Mathlib

/-!
Shallow embedding of the shard-download core of `pdf2dataset`
(`pdf2dataset/downloader.py`), together with proofs of the behavioural
properties stated in the specification.

Pure helpers (`compute_key`, `download_pdf`, `download_pdf_with_retry`) are
translated directly.  The effectful parts are embedded as explicit state
passing: the HTTP layer is an oracle giving each attempt's outcome, the
per-record consumption loop of `Downloader.download_shard` is a fold over the
completion-ordered list of fetch results, and the semaphore discipline of the
backpressure gate is a small transition system.
-/

namespace PdfDataset

/-- A byte of downloaded content (`io.BytesIO` payloads are byte strings). -/
abbrev Byte := Nat

/-! ### Decimal formatting, as used by `compute_key` (downloader.py:45-51)

Python's `"{true_key:0{key_format}d}".format(...)` renders a non-negative
integer in decimal and left-pads it with `'0'` up to a *minimum* width.  We
embed the digit expansion with a fuel-based structural recursion (so that it
evaluates inside the kernel) and relate it to `Nat.digits`. -/

/-- Big-endian base-10 digit values of `n`, with fuel for termination. -/
def decDigitsAux : Nat → Nat → List Nat
  | 0, _ => []
  | fuel + 1, n => if n = 0 then [] else decDigitsAux fuel (n / 10) ++ [n % 10]

/-- Big-endian decimal digits of `n`; `0` renders as `[0]`, as in Python. -/
def decDigits (n : Nat) : List Nat :=
  if n = 0 then [0] else decDigitsAux n n

/-- The character for one decimal digit value. -/
def natDigitChar (d : Nat) : Char := Char.ofNat (48 + d)

/-- Decimal rendering of a non-negative integer, Python's `"%d"`. -/
def decimalRepr (n : Nat) : String := String.mk ((decDigits n).map natDigitChar)

/-- Python's zero-padding to minimum width `w` (format spec `0{w}d`): pad on
the left with `'0'`; a string already at least `w` long is returned as is,
never truncated. -/
def zfill (w : Nat) (s : String) : String :=
  String.mk (List.replicate (w - s.length) '0' ++ s.data)

/-- `compute_key` (downloader.py:45-51). -/
def compute_key (key shard_id oom_sample_per_shard oom_shard_count : Nat) : String :=
  let true_key := 10 ^ oom_sample_per_shard * shard_id + key
  let key_format := oom_sample_per_shard + oom_shard_count
  zfill key_format (decimalRepr true_key)

/-- `int(s)` on a string of decimal digit characters. -/
def parseDec (s : String) : Nat :=
  s.data.foldl (fun a c => 10 * a + (c.toNat - 48)) 0

/-! ### The fetch engine (downloader.py:18-42)

`download_pdf` performs one HTTP GET; we embed the GET by its outcome: either
the body that was read, or the text of the exception that was raised.  The
attempt oracle `http` gives the outcome of the `i`-th GET issued for the row,
so that the sequential retry loop can be stated exactly. -/

/-- One fetch result as produced by `download_pdf`:
`(key, pdf_stream or None, error string or None)`. -/
abbrev FetchRes := Nat × Option (List Byte) × Option String

/-- `download_pdf` (downloader.py:18-34): on a successful GET the body—empty
or not—is wrapped in a stream and returned with no error; on any exception
the error text is returned with no stream. -/
def download_pdf (key : Nat) (http : Except String (List Byte)) : FetchRes :=
  match http with
  | Except.ok body => (key, some body, Option.none)
  | Except.error err => (key, Option.none, some err)

/-- The loop body of `download_pdf_with_retry` (downloader.py:37-42):
`attempt` is the index of the next GET, the final `Nat` is the number of
remaining loop iterations after the current one.  Returns the result together
with the number of `download_pdf` calls made. -/
def retryGo (key : Nat) (http : Nat → Except String (List Byte)) (attempt : Nat) :
    Nat → FetchRes × Nat
  | 0 => (download_pdf key (http attempt), 1)
  | n + 1 =>
    match download_pdf key (http attempt) with
    | (k, some s, e) => ((k, some s, e), 1)
    | (_, Option.none, _) =>
      let r := retryGo key http (attempt + 1) n
      (r.1, r.2 + 1)

/-- `download_pdf_with_retry` (downloader.py:37-42), instrumented with the
number of `download_pdf` calls it makes. -/
def download_pdf_with_retry (key : Nat) (http : Nat → Except String (List Byte))
    (retries : Nat) : FetchRes × Nat :=
  retryGo key http 0 retries

/-! ### The shard consumption loop (downloader.py:119-220)

The loop consumes fetch results in completion order.  We embed the Python
`meta` dict as an association list where dict assignment appends and lookup
takes the *last* binding for a key (so assignment-overwrites semantics is
preserved), and model the per-record mutable state (`successes`,
`failed_to_download`, the writer calls, the status counter, semaphore
releases) as an explicit `LoopState`. -/

/-- The `meta` dict: column values are Python values that are either a string
or `None`, embedded as `Option String`. -/
abbrev Meta := List (String × Option String)

/-- Dict lookup: the last binding for the key wins, as after Python dict
assignments. -/
def metaGet (m : Meta) (k : String) : Option (Option String) :=
  (m.reverse.find? fun p => p.1 == k).map Prod.snd

/-- Modelled from the spec: `CappedCounter` is imported from the `logger`
module, which is not part of the excerpted source.  Per §4.5, `increment`
bumps a tracked label, adds an untracked label with count 1 only while the
number of distinct labels is below the cap, and otherwise drops it. -/
structure CappedCounter where
  counts : List (String × Nat)
  cap : Nat
deriving DecidableEq

/-- Modelled from the spec: `CappedCounter.increment` (§4.5). -/
def CappedCounter.increment (c : CappedCounter) (label : String) : CappedCounter :=
  if (c.counts.find? fun p => p.1 == label).isSome then
    { c with counts := c.counts.map fun p => if p.1 == label then (p.1, p.2 + 1) else p }
  else if c.counts.length < c.cap then
    { c with counts := c.counts ++ [(label, 1)] }
  else c

/-- One `sample_writer.write(content, key, caption, meta)` invocation. -/
structure WriteCall where
  content : Option (List Byte)
  key : String
  caption : Option String
  meta : Meta
deriving DecidableEq

/-- The mutable state threaded through the consumption loop, plus the
observable trace of writer calls and semaphore releases. -/
structure LoopState where
  successes : Nat
  failed_to_download : Nat
  writes : List WriteCall
  status_dict : CappedCounter
  released : Nat
deriving DecidableEq

/-- Where, if anywhere, the processing of one fetched result raises an
exception that the per-record `except` block (downloader.py:198-200) catches:
at the record lookup / key computation / metadata assembly, at the md5
hashing, or inside `sample_writer.write`. -/
inductive ExnSpec
  | noExn
  | atLookup
  | atHash
  | atWrite
deriving DecidableEq

/-- The configuration of one `Downloader` that the loop body reads. -/
structure ShardConfig where
  column_list : List String
  compute_md5 : Bool
  oom_sample_per_shard : Nat
  oom_shard_count : Nat
  md5Hex : List Byte → String

/-- `caption_indice` resolution (downloader.py:126, 173, 192). -/
def captionOf (cfg : ShardConfig) (sample_data : List (Option String)) : Option String :=
  match cfg.column_list.indexOf? "caption" with
  | some i => (sample_data.get? i).join
  | Option.none => Option.none

/-- Exception path of the per-record `try`: nothing observable happened
before the exception; the `except` block and the trailing
`semaphore.release()` (downloader.py:201) still run. -/
def releaseOnly (st : LoopState) : LoopState :=
  { st with released := st.released + 1 }

/-- The body of the `try` block (downloader.py:154-196), once the record data
has been found at `shard_to_dl[key]`.  `e` says where an exception is raised;
every path, exceptional or not, releases the semaphore exactly once
(downloader.py:176 or 201). -/
def processFound (cfg : ShardConfig) (shard_id : Nat) (key : Nat)
    (sample_data : List (Option String)) (pdf_stream : Option (List Byte))
    (error_message : Option String) (e : ExnSpec) (st : LoopState) : LoopState :=
  let str_key := compute_key key shard_id cfg.oom_sample_per_shard cfg.oom_shard_count
  let caption := captionOf cfg sample_data
  let meta0 : Meta :=
    cfg.column_list.zip sample_data
      ++ [("key", some str_key), ("status", Option.none), ("error_message", error_message)]
  let meta0 := if cfg.compute_md5 then meta0 ++ [("md5", Option.none)] else meta0
  match error_message with
  | some err =>
    -- failure branch (downloader.py:165-177); a raising write is still an
    -- invoked write, and the catch releases the permit instead of line 176
    let meta1 := meta0 ++ [("status", some "failed_to_download")]
    let w : WriteCall := ⟨Option.none, str_key, caption, meta1⟩
    releaseOnly { st with
      failed_to_download := st.failed_to_download + 1
      status_dict := st.status_dict.increment err
      writes := st.writes ++ [w] }
  | Option.none =>
    match pdf_stream with
    | Option.none =>
      -- cannot come from the fetcher; `None.seek(0)` raises and is caught
      releaseOnly st
    | some bytes =>
      let st1 := { st with
        successes := st.successes + 1
        status_dict := st.status_dict.increment "success" }
      if cfg.compute_md5 && (e == ExnSpec.atHash) then
        releaseOnly st1
      else
        let meta1 := if cfg.compute_md5 then meta0 ++ [("md5", some (cfg.md5Hex bytes))] else meta0
        let meta2 := meta1 ++ [("status", some "success")]
        let w : WriteCall := ⟨some bytes, str_key, caption, meta2⟩
        releaseOnly { st1 with writes := st1.writes ++ [w] }

/-- One iteration of the consumption loop (downloader.py:150-201) on the
fetch result `res`, with `records` the projected `shard_to_dl` rows and
`exn` the exception oracle. -/
def processRecord (cfg : ShardConfig) (records : List (List (Option String)))
    (shard_id : Nat) (exn : Nat → ExnSpec) (st : LoopState) (res : FetchRes) : LoopState :=
  match records.get? res.1, exn res.1 with
  | Option.none, _ => releaseOnly st
  | some _, ExnSpec.atLookup => releaseOnly st
  | some sample_data, e => processFound cfg shard_id res.1 sample_data res.2.1 res.2.2 e st

/-- The whole consumption loop over the completion-ordered results. -/
def runLoop (cfg : ShardConfig) (records : List (List (Option String)))
    (shard_id : Nat) (exn : Nat → ExnSpec) (st : LoopState)
    (results : List FetchRes) : LoopState :=
  results.foldl (processRecord cfg records shard_id exn) st

/-- The loop state at the top of `download_shard`: zero counters, no writes,
a fresh `CappedCounter` with cap `cap`, no releases. -/
def initState (cap : Nat) : LoopState :=
  ⟨0, 0, [], ⟨[], cap⟩, 0⟩

/-- The arguments handed to `write_stats` (downloader.py:209-219) that the
claims are about; `write_stats` itself lives in the `logger` module and is
modelled from the spec as a sink that persists its arguments. -/
structure StatsCall where
  shard_id : Nat
  count : Nat
  successes : Nat
  failed_to_download : Nat
  status_dict : CappedCounter
  oom_shard_count : Nat
deriving DecidableEq

/-- The per-shard result tuple of `Downloader.__call__`:
`(success flag, 5 counters, payload)`. -/
abbrev ResultTuple := Bool × Nat × Nat × Nat × Nat × Nat × Option Nat

/-- The all-zero failure sentinel returned at downloader.py:90. -/
def failure_sentinel : ResultTuple := (false, 0, 0, 0, 0, 0, Option.none)

/-- `download_shard` (downloader.py:92-220), for the fixed completion order
`results`: runs the consumption loop from the fresh state, issues the
`write_stats` call with `count = len(shard_to_dl)`, and returns the Python
return value of the function body — which has no `return` statement, hence
`None`. -/
def download_shard_model (cfg : ShardConfig) (cap : Nat) (shard_id : Nat)
    (records : List (List (Option String))) (exn : Nat → ExnSpec)
    (results : List FetchRes) : LoopState × StatsCall × Option ResultTuple :=
  let count := records.length
  let final := runLoop cfg records shard_id exn (initState cap) results
  (final,
   ⟨shard_id, count, final.successes, final.failed_to_download,
    final.status_dict, cfg.oom_shard_count⟩,
   Option.none)

/-- `Downloader.__call__` (downloader.py:81-90): the shard run either ends
normally with `download_shard`'s return value, or an exception escapes and is
converted into the all-zero failure sentinel. -/
def downloader_call (outcome : Except String (LoopState × StatsCall × Option ResultTuple)) :
    Option ResultTuple :=
  match outcome with
  | Except.ok r => r.2.2
  | Except.error _ => some failure_sentinel

/-! ### The backpressure gate (downloader.py:129-138, 176, 201)

`Semaphore(thread_count * 2)` is acquired by `data_generator` before each
`(key, url)` pair is yielded and released exactly once per consumed record
after its `writer.write` call (or the catch of its exception).  We embed the
gate as a transition system on the pair (permits available, records in
flight). -/

/-- `semaphore = Semaphore(self.thread_count * 2)` (downloader.py:131). -/
def gateCapacity (thread_count : Nat) : Nat := thread_count * 2

/-- Gate state: permits left in the semaphore, and records dequeued from the
generator whose `writer.write` has not yet returned (nor their exception been
caught). -/
structure GateState where
  available : Nat
  inFlight : Nat
deriving DecidableEq

/-- Atomic events of the gate: `dequeue` is `semaphore.acquire()` before a
yield (blocked unless a permit is available), `complete` is the
`semaphore.release()` after the record's write or caught exception. -/
inductive GateStep : GateState → GateState → Prop
  | dequeue (s : GateState) (h : 0 < s.available) :
      GateStep s ⟨s.available - 1, s.inFlight + 1⟩
  | complete (s : GateState) (h : 0 < s.inFlight) :
      GateStep s ⟨s.available + 1, s.inFlight - 1⟩

/-- States reachable from the fresh gate of capacity `cap`. -/
inductive GateReach (cap : Nat) : GateState → Prop
  | init : GateReach cap ⟨cap, 0⟩
  | step {s t : GateState} : GateReach cap s → GateStep s t → GateReach cap t

/-! ### Well-formedness of fetch results

Every result delivered to the loop by `thread_pool.imap_unordered` comes from
`download_pdf_with_retry` on a key of `shard_to_dl`: the key indexes a record,
and exactly one of the stream and the error message is present. -/

/-- A fetch result the pool can actually deliver for this shard. -/
def wellFormedRes (records : List (List (Option String))) (r : FetchRes) : Prop :=
  (∃ d, records.get? r.1 = some d) ∧
  ((∃ c, r.2.1 = some c ∧ r.2.2 = Option.none) ∨
    (r.2.1 = Option.none ∧ ∃ e, r.2.2 = some e))

/-! ### Concrete fixtures used by the witness theorems -/

/-- An attempt oracle that fails twice, then succeeds. -/
def httpW : Nat → Except String (List Byte) := fun i =>
  if i < 2 then Except.error (String.append "e" (Nat.repr i)) else Except.ok [7]

/-- The error texts of `httpW`'s failing attempts. -/
def errW : Nat → String := fun i => String.append "e" (Nat.repr i)

/-- A concrete downloader configuration. -/
def cfgW : ShardConfig := ⟨["url", "caption"], true, 1, 1, fun _ => "digest"⟩

/-- A concrete two-record shard. -/
def recordsW : List (List (Option String)) := [[some "u0", some "c0"], [some "u1", some "c1"]]

/-- An exception oracle that raises inside the write of record 0 only. -/
def exnW : Nat → ExnSpec := fun k => if k = 0 then ExnSpec.atWrite else ExnSpec.noExn

/-- The exception oracle of a run with no per-record exception. -/
def exnNone : Nat → ExnSpec := fun _ => ExnSpec.noExn

/-! ## Lemmas about decimal rendering -/

theorem decDigitsAux_eq (fuel : Nat) : ∀ n : Nat, n ≤ fuel →
    decDigitsAux fuel n = (Nat.digits 10 n).reverse := by
  induction fuel with
  | zero =>
    intro n hn
    interval_cases n
    simp [decDigitsAux]
  | succ fuel ih =>
    intro n hn
    by_cases h0 : n = 0
    · simp [decDigitsAux, h0]
    · have hpos : 0 < n := Nat.pos_of_ne_zero h0
      have hdiv : n / 10 ≤ fuel := by
        have : n / 10 < n := Nat.div_lt_self hpos (by norm_num)
        omega
      rw [decDigitsAux, if_neg h0, ih _ hdiv,
        Nat.digits_def' (by norm_num : 1 < 10) hpos, List.reverse_cons]

theorem decDigits_eq {n : Nat} (hn : n ≠ 0) : decDigits n = (Nat.digits 10 n).reverse := by
  rw [decDigits, if_neg hn, decDigitsAux_eq n n le_rfl]

theorem decDigits_lt_ten {n : Nat} : ∀ d ∈ decDigits n, d < 10 := by
  intro d hd
  by_cases h0 : n = 0
  · subst h0; simp [decDigits] at hd; omega
  · rw [decDigits_eq h0, List.mem_reverse] at hd
    exact Nat.digits_lt_base (by norm_num) hd

theorem length_decDigits_pos (n : Nat) : 1 ≤ (decDigits n).length := by
  by_cases h0 : n = 0
  · simp [decDigits, h0]
  · rw [decDigits_eq h0, List.length_reverse,
      Nat.digits_len 10 n (by norm_num) h0]
    omega

theorem length_decDigits_le {n w : Nat} (hw : 1 ≤ w) (h : n < 10 ^ w) :
    (decDigits n).length ≤ w := by
  by_cases h0 : n = 0
  · simpa [decDigits, h0] using hw
  · rw [decDigits_eq h0, List.length_reverse, Nat.digits_len 10 n (by norm_num) h0]
    have : Nat.log 10 n < w := (Nat.lt_pow_iff_log_lt (by norm_num) h0).mp h
    omega

theorem lt_length_decDigits {n w : Nat} (h : 10 ^ w ≤ n) : w < (decDigits n).length := by
  have h0 : n ≠ 0 := by
    have : 1 ≤ 10 ^ w := Nat.one_le_pow _ _ (by norm_num)
    omega
  rw [decDigits_eq h0, List.length_reverse, Nat.digits_len 10 n (by norm_num) h0]
  have : w ≤ Nat.log 10 n := (Nat.pow_le_iff_le_log (by norm_num) h0).mp h
  omega

theorem foldl_mul_add_reverse (l : List Nat) :
    l.reverse.foldl (fun a d => 10 * a + d) 0 = Nat.ofDigits 10 l := by
  induction l with
  | nil => simp [Nat.ofDigits]
  | cons d l ih =>
    rw [List.reverse_cons, List.foldl_append, ih, Nat.ofDigits_cons]
    simp [Nat.mul_comm]
    omega

theorem natDigitChar_toNat {d : Nat} (h : d < 10) : (natDigitChar d).toNat - 48 = d := by
  interval_cases d <;> decide

theorem foldl_map_digitChar (ds : List Nat) (h : ∀ d ∈ ds, d < 10) : ∀ a : Nat,
    (ds.map natDigitChar).foldl (fun a c => 10 * a + (c.toNat - 48)) a
      = ds.foldl (fun a d => 10 * a + d) a := by
  induction ds with
  | nil => intro a; rfl
  | cons d ds ih =>
    intro a
    have hd : d < 10 := h d (by simp)
    rw [List.map_cons, List.foldl_cons, List.foldl_cons, natDigitChar_toNat hd,
      ih (fun x hx => h x (by simp [hx]))]

theorem foldl_replicate_zero (k : Nat) :
    (List.replicate k '0').foldl (fun a c => 10 * a + (c.toNat - 48)) 0 = 0 := by
  induction k with
  | zero => rfl
  | succ k ih =>
    rw [List.replicate_succ, List.foldl_cons]
    simpa using ih

theorem parseDec_zfill_decimalRepr (w n : Nat) : parseDec (zfill w (decimalRepr n)) = n := by
  show (List.replicate (w - (decimalRepr n).length) '0'
      ++ ((decDigits n).map natDigitChar)).foldl (fun a c => 10 * a + (c.toNat - 48)) 0 = n
  rw [List.foldl_append, foldl_replicate_zero,
    foldl_map_digitChar _ (fun d hd => decDigits_lt_ten d hd)]
  by_cases h0 : n = 0
  · subst h0; rfl
  · rw [decDigits_eq h0, foldl_mul_add_reverse, Nat.ofDigits_digits]

theorem length_decimalRepr (n : Nat) : (decimalRepr n).length = (decDigits n).length := by
  show ((decDigits n).map natDigitChar).length = (decDigits n).length
  rw [List.length_map]

theorem length_zfill (w : Nat) (s : String) : (zfill w s).length = max w s.length := by
  show (List.replicate (w - s.length) '0' ++ s.data).length = max w s.length
  rw [List.length_append, List.length_replicate]
  show w - s.length + s.data.length = max w s.length
  have : s.data.length = s.length := rfl
  omega

theorem length_compute_key (k s a b : Nat) :
    (compute_key k s a b).length = max (a + b) (decDigits (10 ^ a * s + k)).length := by
  show (zfill (a + b) (decimalRepr (10 ^ a * s + k))).length = _
  rw [length_zfill, length_decimalRepr]

/-! ## Claims about `compute_key` -/

/-- C2 (amended): for in-range inputs and a total digit width of at least 1,
`compute_key` returns a decimal string of length exactly
`oom_sample_per_shard + oom_shard_count` whose value parses back to
`local_index + shard_id * 10 ^ oom_sample_per_shard`, and it is a pure
function of its arguments.  (When both widths are zero the only in-range
input renders as `"0"`, of length 1.) -/
theorem compute_key_in_range_spec (k s a b : Nat) (hw : 1 ≤ a + b)
    (hk : k < 10 ^ a) (hs : s < 10 ^ b) :
    (compute_key k s a b).length = a + b ∧
    parseDec (compute_key k s a b) = k + s * 10 ^ a ∧
    compute_key k s a b = compute_key k s a b := by
  refine ⟨?_, ?_, rfl⟩
  · rw [length_compute_key]
    have hv : 10 ^ a * s + k < 10 ^ (a + b) := by
      calc 10 ^ a * s + k < 10 ^ a * s + 10 ^ a := by omega
        _ = 10 ^ a * (s + 1) := by ring
        _ ≤ 10 ^ a * 10 ^ b := Nat.mul_le_mul_left _ (by omega)
        _ = 10 ^ (a + b) := (pow_add 10 a b).symm
    have := length_decDigits_le hw hv
    omega
  · show parseDec (zfill (a + b) (decimalRepr (10 ^ a * s + k))) = _
    rw [parseDec_zfill_decimalRepr]
    ring

/-- C2, counterexample to the claim as stated: with
`oom_sample_per_shard = oom_shard_count = 0` the in-range input
`local_index = shard_id = 0` yields the key `"0"`, of length 1, not
`0 + 0 = 0`. -/
theorem compute_key_zero_width_cex :
    (0 : Nat) < 10 ^ (0 : Nat) ∧ (compute_key 0 0 0 0).length ≠ 0 + 0 := by decide

/-- C2, witness for `compute_key_in_range_spec` at `(3, 2, 1, 1)`. -/
theorem compute_key_in_range_spec_witness :
    1 ≤ 1 + 1 ∧ 3 < 10 ^ 1 ∧ 2 < 10 ^ 1 ∧
      ((compute_key 3 2 1 1).length = 1 + 1 ∧
        parseDec (compute_key 3 2 1 1) = 3 + 2 * 10 ^ 1 ∧
        compute_key 3 2 1 1 = compute_key 3 2 1 1) :=
  ⟨by decide, by decide, by decide,
    compute_key_in_range_spec 3 2 1 1 (by decide) (by decide) (by decide)⟩

/-- C8 (amended): out-of-range inputs raise no exception (`compute_key` is a
total function) and the key is never truncated: its length is the fixed width
extended, if necessary, to hold every digit of the overflowing value — so a
value of at least `10 ^ (oom_sample_per_shard + oom_shard_count)` makes the
key strictly longer than the fixed width. -/
theorem compute_key_never_truncated (k s a b : Nat) :
    a + b ≤ (compute_key k s a b).length ∧
    (compute_key k s a b).length = max (a + b) (decDigits (10 ^ a * s + k)).length ∧
    (10 ^ (a + b) ≤ 10 ^ a * s + k → a + b < (compute_key k s a b).length) := by
  have hlen := length_compute_key k s a b
  refine ⟨by omega, hlen, fun hov => ?_⟩
  have := lt_length_decDigits hov
  omega

/-- C8, counterexample to the claim as stated: `local_index = 100` overflows
`10 ^ oom_sample_per_shard = 10`, and the returned key has length 3, not the
fixed width `1 + 1 = 2` — the key is not truncated. -/
theorem compute_key_truncation_cex :
    (10 : Nat) ^ 1 ≤ 100 ∧ (compute_key 100 0 1 1).length ≠ 1 + 1 := by decide

/-- C8, witness for `compute_key_never_truncated` at `(250, 0, 1, 1)`. -/
theorem compute_key_never_truncated_witness :
    (10 : Nat) ^ (1 + 1) ≤ 10 ^ 1 * 0 + 250 ∧ 1 + 1 < (compute_key 250 0 1 1).length :=
  ⟨by decide, (compute_key_never_truncated 250 0 1 1).2.2 (by decide)⟩

/-- C9 (amended): for all inputs, without any upper bound, the key parses
back as a decimal integer to exactly
`local_index + shard_id * 10 ^ oom_sample_per_shard`, and zero-padding never
discards digits (the key is at least as long as the digit expansion of the
value).  However an out-of-range input whose value still fits in the fixed
width yields a fixed-width key, which can collide with an in-range key,
rather than a longer string. -/
theorem compute_key_parse_round_trip (k s a b : Nat) :
    parseDec (compute_key k s a b) = k + s * 10 ^ a ∧
    (decDigits (10 ^ a * s + k)).length ≤ (compute_key k s a b).length := by
  constructor
  · show parseDec (zfill (a + b) (decimalRepr (10 ^ a * s + k))) = _
    rw [parseDec_zfill_decimalRepr]
    ring
  · rw [length_compute_key]
    omega

/-- C9, counterexample to the claim as stated: `local_index = 10` is out of
range for `oom_sample_per_shard = 1`, yet the key `"10"` has exactly the fixed
width `1 + 1`, not more, and collides with the in-range key of
`(local_index, shard_id) = (0, 1)`. -/
theorem compute_key_overflow_width_cex :
    (10 : Nat) ^ 1 ≤ 10 ∧ (compute_key 10 0 1 1).length = 1 + 1 ∧
    compute_key 10 0 1 1 = compute_key 0 1 1 1 := by decide

/-! ## Lemmas about the retry loop -/

theorem retryGo_calls_le (key : Nat) (http : Nat → Except String (List Byte)) :
    ∀ n attempt, (retryGo key http attempt n).2 ≤ n + 1 := by
  intro n
  induction n with
  | zero => intro a; simp [retryGo]
  | succ n ih =>
    intro a
    cases h : http a with
    | ok body => simp [retryGo, download_pdf, h]
    | error e =>
      have := ih (a + 1)
      simp [retryGo, download_pdf, h]
      omega

theorem retryGo_first_success (key : Nat) (http : Nat → Except String (List Byte))
    (c : List Byte) :
    ∀ k n attempt, (∀ i, i < k → ∃ e, http (attempt + i) = Except.error e) →
      http (attempt + k) = Except.ok c → k ≤ n →
      retryGo key http attempt n = ((key, some c, Option.none), k + 1) := by
  intro k
  induction k with
  | zero =>
    intro n a hfail hsucc hkn
    have ha : http a = Except.ok c := by simpa using hsucc
    cases n with
    | zero => simp [retryGo, download_pdf, ha]
    | succ n => simp [retryGo, download_pdf, ha]
  | succ k ih =>
    intro n a hfail hsucc hkn
    obtain ⟨m, rfl⟩ : ∃ m, n = m + 1 := ⟨n - 1, by omega⟩
    obtain ⟨e, he⟩ := hfail 0 (by omega)
    have ha : http a = Except.error e := by simpa using he
    have hrec := ih m (a + 1)
      (fun i hi => by
        have h := hfail (i + 1) (by omega)
        rwa [show a + (i + 1) = a + 1 + i by omega] at h)
      (by rwa [show a + (k + 1) = a + 1 + k by omega] at hsucc)
      (by omega)
    simp [retryGo, download_pdf, ha, hrec]

theorem retryGo_all_fail (key : Nat) (http : Nat → Except String (List Byte))
    (e : Nat → String) :
    ∀ n attempt, (∀ i, attempt ≤ i → i ≤ attempt + n → http i = Except.error (e i)) →
      retryGo key http attempt n = ((key, Option.none, some (e (attempt + n))), n + 1) := by
  intro n
  induction n with
  | zero =>
    intro a hfail
    simp [retryGo, download_pdf, hfail a le_rfl (by omega)]
  | succ n ih =>
    intro a hfail
    have ha : http a = Except.error (e a) := hfail a le_rfl (by omega)
    have hrec := ih (a + 1) (fun i h1 h2 => hfail i (by omega) (by omega))
    simp [retryGo, download_pdf, ha, hrec, show a + 1 + n = a + (n + 1) by omega]

/-- C3: `download_pdf_with_retry` makes at most `retries + 1` sequential
`download_pdf` calls; against a fetcher that fails exactly `R` times and then
succeeds, any retry budget of at least `R` returns the success after exactly
`R + 1` calls (the first success short-circuits), while a budget of `R - 1`
(for `R ≥ 1`) returns a failure carrying the last attempt's error message. -/
theorem retry_law (key : Nat) (http : Nat → Except String (List Byte))
    (R : Nat) (e : Nat → String) (c : List Byte)
    (hfail : ∀ i, i < R → http i = Except.error (e i))
    (hsucc : http R = Except.ok c) :
    (∀ retries, (download_pdf_with_retry key http retries).2 ≤ retries + 1) ∧
    (∀ retries, R ≤ retries →
      download_pdf_with_retry key http retries = ((key, some c, Option.none), R + 1)) ∧
    (1 ≤ R →
      download_pdf_with_retry key http (R - 1)
        = ((key, Option.none, some (e (R - 1))), R)) := by
  refine ⟨fun retries => retryGo_calls_le key http retries 0, fun retries hR => ?_, fun hR => ?_⟩
  · exact retryGo_first_success key http c R retries 0
      (fun i hi => ⟨e i, by simpa using hfail i hi⟩) (by simpa using hsucc) hR
  · have h := retryGo_all_fail key http e (R - 1) 0
      (fun i h0 hi => hfail i (by omega))
    rw [download_pdf_with_retry, h]
    have h1 : 0 + (R - 1) = R - 1 := by omega
    have h2 : R - 1 + 1 = R := by omega
    rw [h1, h2]

/-- C3, witness for `retry_law` against `httpW`, which fails exactly twice:
with `retries = 2` the fetch succeeds after 3 calls, with `retries = 1` it
fails with the second (last) attempt's error message. -/
theorem retry_law_witness :
    download_pdf_with_retry 5 httpW 2 = ((5, some [7], Option.none), 2 + 1) ∧
    download_pdf_with_retry 5 httpW 1 = ((5, Option.none, some (errW 1)), 2) ∧
    (download_pdf_with_retry 5 httpW 9).2 ≤ 9 + 1 := by
  have h := retry_law 5 httpW 2 errW [7]
    (by intro i hi; interval_cases i <;> rfl) (by rfl)
  exact ⟨h.2.1 2 le_rfl, h.2.2 (by omega), h.1 9⟩

/-! ## Lemmas about the consumption loop -/

theorem processFound_released (cfg : ShardConfig) (shard_id key : Nat)
    (data : List (Option String)) (content : Option (List Byte))
    (err : Option String) (e : ExnSpec) (st : LoopState) :
    (processFound cfg shard_id key data content err e st).released = st.released + 1 := by
  unfold processFound
  cases err with
  | some e' => simp [releaseOnly]
  | none =>
    cases content with
    | none => simp [releaseOnly]
    | some bytes =>
      by_cases h : (cfg.compute_md5 && (e == ExnSpec.atHash)) = true <;>
        simp [h, releaseOnly]

theorem processRecord_released (cfg : ShardConfig)
    (records : List (List (Option String))) (shard_id : Nat) (exn : Nat → ExnSpec)
    (st : LoopState) (res : FetchRes) :
    (processRecord cfg records shard_id exn st res).released = st.released + 1 := by
  rcases res with ⟨key, content, err⟩
  unfold processRecord
  cases hget : records.get? key with
  | none => simp [releaseOnly]
  | some data =>
    cases he : exn key with
    | noExn => exact processFound_released cfg shard_id key data content err _ st
    | atLookup => simp [releaseOnly]
    | atHash => exact processFound_released cfg shard_id key data content err _ st
    | atWrite => exact processFound_released cfg shard_id key data content err _ st

theorem runLoop_released (cfg : ShardConfig) (records : List (List (Option String)))
    (shard_id : Nat) (exn : Nat → ExnSpec) :
    ∀ (results : List FetchRes) (st : LoopState),
      (runLoop cfg records shard_id exn st results).released
        = st.released + results.length := by
  intro results
  induction results with
  | nil => intro st; simp [runLoop]
  | cons r rs ih =>
    intro st
    show (runLoop cfg records shard_id exn
      (processRecord cfg records shard_id exn st r) rs).released = _
    rw [ih, processRecord_released]
    simp
    omega

theorem processRecord_step (cfg : ShardConfig) (records : List (List (Option String)))
    (shard_id : Nat) (exn : Nat → ExnSpec) (st : LoopState) (r : FetchRes)
    (hexn : exn r.1 = ExnSpec.noExn) (hwf : wellFormedRes records r) :
    (processRecord cfg records shard_id exn st r).writes.length
        = st.writes.length + 1 ∧
    (processRecord cfg records shard_id exn st r).successes
          + (processRecord cfg records shard_id exn st r).failed_to_download
        = st.successes + st.failed_to_download + 1 := by
  obtain ⟨⟨data, hget⟩, hcases⟩ := hwf
  rcases r with ⟨key, content, err⟩
  simp only at hget hexn hcases
  unfold processRecord
  simp only [hget, hexn]
  rcases hcases with ⟨c, hc, he⟩ | ⟨hc, e', he⟩ <;> subst hc <;> subst he <;>
    unfold processFound
  · have hcond : (cfg.compute_md5 && (ExnSpec.noExn == ExnSpec.atHash)) = false := by
      simp
    simp [hcond, releaseOnly]
    omega
  · simp [releaseOnly]
    omega

theorem runLoop_counts (cfg : ShardConfig) (records : List (List (Option String)))
    (shard_id : Nat) (exn : Nat → ExnSpec) :
    ∀ (results : List FetchRes) (st : LoopState),
      (∀ r ∈ results, exn r.1 = ExnSpec.noExn) →
      (∀ r ∈ results, wellFormedRes records r) →
      (runLoop cfg records shard_id exn st results).writes.length
          = st.writes.length + results.length ∧
      (runLoop cfg records shard_id exn st results).successes
            + (runLoop cfg records shard_id exn st results).failed_to_download
          = st.successes + st.failed_to_download + results.length := by
  intro results
  induction results with
  | nil => intro st _ _; simp [runLoop]
  | cons r rs ih =>
    intro st hexn hwf
    have hstep := processRecord_step cfg records shard_id exn st r
      (hexn r (by simp)) (hwf r (by simp))
    have hrec := ih (processRecord cfg records shard_id exn st r)
      (fun q hq => hexn q (by simp [hq])) (fun q hq => hwf q (by simp [hq]))
    constructor
    · show (runLoop cfg records shard_id exn
        (processRecord cfg records shard_id exn st r) rs).writes.length = _
      rw [hrec.1, hstep.1]
      simp
      omega
    · show (runLoop cfg records shard_id exn
          (processRecord cfg records shard_id exn st r) rs).successes
        + (runLoop cfg records shard_id exn
          (processRecord cfg records shard_id exn st r) rs).failed_to_download = _
      rw [hrec.2, hstep.2]
      simp
      omega

/-! ## Claims about the gate, the loop and the shard wrapper -/

theorem gateReach_sum {cap : Nat} {s : GateState} (h : GateReach cap s) :
    s.available + s.inFlight = cap := by
  induction h with
  | init => rfl
  | step hr hstep ih =>
    cases hstep with
    | dequeue h => simp at ih ⊢; omega
    | complete h => simp at ih ⊢; omega

/-- C1: with thread pool size `T` the gate semaphore has capacity `2 × T`
(`Semaphore(thread_count * 2)`); in every state reachable by acquiring one
permit per dequeued `(key, url)` pair and releasing one permit per completed
record, at most `2 × T` records are in flight between the generator dequeue
and the return (or caught failure) of their `writer.write` call — and each
consumed record releases exactly one permit, on every control path of the
loop body. -/
theorem backpressure_bound (T : Nat) (s : GateState)
    (h : GateReach (gateCapacity T) s) :
    s.inFlight ≤ 2 * T ∧
    ∀ (cfg : ShardConfig) (records : List (List (Option String))) (shard_id : Nat)
      (exn : Nat → ExnSpec) (st : LoopState) (res : FetchRes),
      (processRecord cfg records shard_id exn st res).released = st.released + 1 := by
  have hsum := gateReach_sum h
  rw [gateCapacity] at hsum
  exact ⟨by omega,
    fun cfg records shard_id exn st res =>
      processRecord_released cfg records shard_id exn st res⟩

/-- C1, witness: with `T = 1`, the state after one dequeue is reachable and
satisfies the bound. -/
theorem backpressure_bound_witness :
    GateReach (gateCapacity 1) ⟨1, 1⟩ ∧ GateState.inFlight ⟨1, 1⟩ ≤ 2 * 1 := by
  have hreach : GateReach (gateCapacity 1) ⟨1, 1⟩ := by
    have h0 : GateReach (gateCapacity 1) ⟨2, 0⟩ := GateReach.init
    have hstep : GateStep ⟨2, 0⟩ ⟨1, 1⟩ := by
      have h := GateStep.dequeue ⟨2, 0⟩ (by decide)
      simpa using h
    exact GateReach.step h0 hstep
  exact ⟨hreach, (backpressure_bound 1 ⟨1, 1⟩ hreach).1⟩

/-- C4: on a shard of `N` records whose results all arrive and whose
per-record processing raises no exception, the loop performs exactly `N`
`sample_writer.write` calls — one per record whether its fetch succeeded or
failed — and at completion `successes + failed_to_download = N`, where `N`
is also the `count` passed to `write_stats`. -/
theorem download_shard_completeness (cfg : ShardConfig) (cap shard_id : Nat)
    (records : List (List (Option String))) (exn : Nat → ExnSpec)
    (results : List FetchRes)
    (hexn : ∀ r ∈ results, exn r.1 = ExnSpec.noExn)
    (hwf : ∀ r ∈ results, wellFormedRes records r)
    (hlen : results.length = records.length) :
    (download_shard_model cfg cap shard_id records exn results).1.writes.length
        = records.length ∧
    (download_shard_model cfg cap shard_id records exn results).1.successes
        + (download_shard_model cfg cap shard_id records exn results).1.failed_to_download
        = records.length ∧
    (download_shard_model cfg cap shard_id records exn results).2.1.count
        = records.length ∧
    (download_shard_model cfg cap shard_id records exn results).2.1.successes
        = (download_shard_model cfg cap shard_id records exn results).1.successes ∧
    (download_shard_model cfg cap shard_id records exn results).2.1.failed_to_download
        = (download_shard_model cfg cap shard_id records exn results).1.failed_to_download := by
  have h := runLoop_counts cfg records shard_id exn results (initState cap) hexn hwf
  refine ⟨?_, ?_, rfl, rfl, rfl⟩
  · show (runLoop cfg records shard_id exn (initState cap) results).writes.length = _
    rw [h.1]
    simp [initState]
    omega
  · show (runLoop cfg records shard_id exn (initState cap) results).successes
        + (runLoop cfg records shard_id exn (initState cap) results).failed_to_download = _
    rw [h.2]
    simp [initState]
    omega

/-- C4, witness: a concrete two-record shard, one success and one failure,
delivered out of order. -/
theorem download_shard_completeness_witness :
    (download_shard_model cfgW 5 0 recordsW exnNone
        [(1, some [3, 4], Option.none), (0, Option.none, some "nope")]).1.writes.length
      = recordsW.length ∧
    (download_shard_model cfgW 5 0 recordsW exnNone
        [(1, some [3, 4], Option.none), (0, Option.none, some "nope")]).1.successes
      + (download_shard_model cfgW 5 0 recordsW exnNone
        [(1, some [3, 4], Option.none), (0, Option.none, some "nope")]).1.failed_to_download
      = recordsW.length := by
  have h := download_shard_completeness cfgW 5 0 recordsW exnNone
    [(1, some [3, 4], Option.none), (0, Option.none, some "nope")]
    (by
      intro r hr
      simp only [List.mem_cons, List.not_mem_nil, or_false] at hr
      rcases hr with rfl | rfl <;> rfl)
    (by
      intro r hr
      simp only [List.mem_cons, List.not_mem_nil, or_false] at hr
      rcases hr with rfl | rfl
      · exact ⟨⟨[some "u1", some "c1"], rfl⟩, Or.inl ⟨[3, 4], rfl, rfl⟩⟩
      · exact ⟨⟨[some "u0", some "c0"], rfl⟩, Or.inr ⟨rfl, "nope", rfl⟩⟩)
    rfl
  exact ⟨h.1, h.2.1⟩

/-- C5: `Downloader.__call__` returns the all-zero failure sentinel
`(False, 0, 0, 0, 0, 0, None)` whenever an exception escapes
`download_shard`; but on a run where no exception escapes it returns `None`
— `download_shard` has no `return` statement — not a per-shard result tuple
with success markers and counts. -/
theorem downloader_call_shape (err : String) (cfg : ShardConfig) (cap shard_id : Nat)
    (records : List (List (Option String))) (exn : Nat → ExnSpec)
    (results : List FetchRes) :
    downloader_call (Except.error err) = some failure_sentinel ∧
    downloader_call (Except.ok (download_shard_model cfg cap shard_id records exn results))
      = Option.none :=
  ⟨rfl, rfl⟩

/-- C6: an exception raised while processing one fetched result is caught
inside the loop and does not abort the shard: the throwing record still
releases its semaphore permit exactly once, the loop goes on to the remaining
results, every remaining (exception-free) record is still written, and every
consumed record — throwing or not — releases exactly one permit. -/
theorem per_record_exception_contained (cfg : ShardConfig)
    (records : List (List (Option String))) (shard_id : Nat) (exn : Nat → ExnSpec)
    (st : LoopState) (r : FetchRes) (rest : List FetchRes)
    (_hthrow : exn r.1 ≠ ExnSpec.noExn)
    (hexn : ∀ q ∈ rest, exn q.1 = ExnSpec.noExn)
    (hwf : ∀ q ∈ rest, wellFormedRes records q) :
    (processRecord cfg records shard_id exn st r).released = st.released + 1 ∧
    runLoop cfg records shard_id exn st (r :: rest)
      = runLoop cfg records shard_id exn (processRecord cfg records shard_id exn st r) rest ∧
    (runLoop cfg records shard_id exn st (r :: rest)).writes.length
      = (processRecord cfg records shard_id exn st r).writes.length + rest.length ∧
    (runLoop cfg records shard_id exn st (r :: rest)).released
      = st.released + (rest.length + 1) := by
  refine ⟨processRecord_released cfg records shard_id exn st r, rfl, ?_, ?_⟩
  · exact (runLoop_counts cfg records shard_id exn rest
      (processRecord cfg records shard_id exn st r) hexn hwf).1
  · rw [runLoop_released]
    simp [Nat.add_comm]

/-- C6, witness: record 0 raises inside its write (`exnW`), record 1 is
exception-free; the permit accounting and the surviving write are as proved. -/
theorem per_record_exception_contained_witness :
    (processRecord cfgW recordsW 0 exnW (initState 3) (0, Option.none, some "err")).released
        = (initState 3).released + 1 ∧
    (runLoop cfgW recordsW 0 exnW (initState 3)
        [(0, Option.none, some "err"), (1, some [1], Option.none)]).released
        = (initState 3).released + (1 + 1) := by
  have h := per_record_exception_contained cfgW recordsW 0 exnW (initState 3)
    (0, Option.none, some "err") [(1, some [1], Option.none)]
    (by decide)
    (by
      intro q hq
      simp only [List.mem_singleton] at hq
      subst hq
      rfl)
    (by
      intro q hq
      simp only [List.mem_singleton] at hq
      subst hq
      exact ⟨⟨[some "u1", some "c1"], rfl⟩, Or.inl ⟨[1], rfl, rfl⟩⟩)
  exact ⟨h.1, h.2.2.2⟩

/-! ## Lemmas about dict lookup in the assembled metadata -/

theorem metaGet_append_last (m : Meta) (k : String) (v : Option String) :
    metaGet (m ++ [(k, v)]) k = some v := by
  unfold metaGet
  rw [show (m ++ [(k, v)]).reverse = (k, v) :: m.reverse by simp]
  rw [List.find?_cons_of_pos _ (by simp)]
  rfl

theorem metaGet_append_ne (m : Meta) (k q : String) (v : Option String) (h : k ≠ q) :
    metaGet (m ++ [(k, v)]) q = metaGet m q := by
  unfold metaGet
  rw [show (m ++ [(k, v)]).reverse = (k, v) :: m.reverse by simp]
  rw [List.find?_cons_of_neg _ (by simp [h])]

theorem metaGet_append_no_key (m entries : Meta) (q : String)
    (h : ∀ p ∈ entries, p.1 ≠ q) : metaGet (m ++ entries) q = metaGet m q := by
  induction entries generalizing m with
  | nil => simp
  | cons p es ih =>
    rw [show m ++ (p :: es) = (m ++ [p]) ++ es by simp]
    rw [ih (m ++ [p]) (fun x hx => h x (List.mem_cons_of_mem _ hx))]
    exact metaGet_append_ne m p.1 q p.2 (h p (by simp))

theorem metaGet_zip (cols : List String) :
    ∀ (data : List (Option String)) (i : Nat) (c : String) (v : Option String),
      cols.Nodup → cols.get? i = some c → data.get? i = some v →
      metaGet (cols.zip data) c = some v := by
  induction cols with
  | nil => intro data i c v _ hc _; simp at hc
  | cons c0 cs ih =>
    intro data i c v hnd hc hv
    cases data with
    | nil => simp at hv
    | cons v0 ds =>
      cases i with
      | zero =>
        simp only [List.get?] at hc hv
        injection hc with hc
        injection hv with hv
        subst hc
        subst hv
        unfold metaGet
        rw [List.zip_cons_cons,
          show ((c0, v0) :: cs.zip ds).reverse = (cs.zip ds).reverse ++ [(c0, v0)] by simp]
        rw [List.find?_append]
        have hnone : (cs.zip ds).reverse.find? (fun p => p.1 == c0) = Option.none := by
          rw [List.find?_eq_none]
          intro x hx
          have hx1 : x.1 ∈ cs := by
            rcases x with ⟨xk, xv⟩
            exact (List.of_mem_zip (by simpa using hx)).1
          have hne : x.1 ≠ c0 := fun hh => (List.nodup_cons.mp hnd).1 (hh ▸ hx1)
          simp [hne]
        rw [hnone]
        simp [List.find?_cons_of_pos]
      | succ i =>
        simp only [List.get?] at hc hv
        have hnd' := (List.nodup_cons.mp hnd).2
        have hcmem : c ∈ cs := List.get?_mem hc
        have hne : c ≠ c0 := fun hh => (List.nodup_cons.mp hnd).1 (hh ▸ hcmem)
        have hrec := ih ds i c v hnd' hc hv
        unfold metaGet at hrec ⊢
        rw [List.zip_cons_cons,
          show ((c0, v0) :: cs.zip ds).reverse = (cs.zip ds).reverse ++ [(c0, v0)] by simp]
        rw [List.find?_append]
        cases hfind : (cs.zip ds).reverse.find? (fun p => p.1 == c) with
        | none => rw [hfind] at hrec; simp at hrec
        | some p => rw [hfind] at hrec; simpa using hrec

theorem processRecord_eq_found (cfg : ShardConfig)
    (records : List (List (Option String))) (shard_id : Nat) (exn : Nat → ExnSpec)
    (st : LoopState) (key : Nat) (content : Option (List Byte)) (err : Option String)
    (data : List (Option String)) (hget : records.get? key = some data)
    (hexn : exn key = ExnSpec.noExn) :
    processRecord cfg records shard_id exn st (key, content, err)
      = processFound cfg shard_id key data content err ExnSpec.noExn st := by
  unfold processRecord
  simp only [hget, hexn]

theorem processFound_fail_eq (cfg : ShardConfig) (shard_id key : Nat)
    (data : List (Option String)) (e : String) (es : ExnSpec) (st : LoopState) :
    processFound cfg shard_id key data Option.none (some e) es st
      = { st with
          failed_to_download := st.failed_to_download + 1
          status_dict := st.status_dict.increment e
          released := st.released + 1
          writes := st.writes ++ [⟨Option.none,
              compute_key key shard_id cfg.oom_sample_per_shard cfg.oom_shard_count,
              captionOf cfg data,
              cfg.column_list.zip data
                ++ [("key", some (compute_key key shard_id
                      cfg.oom_sample_per_shard cfg.oom_shard_count)),
                    ("status", Option.none), ("error_message", some e)]
                ++ (if cfg.compute_md5 then [("md5", (Option.none : Option String))] else [])
                ++ [("status", some "failed_to_download")]⟩] } := by
  unfold processFound releaseOnly
  cases hm : cfg.compute_md5 <;> simp [hm]

theorem processFound_success_eq (cfg : ShardConfig) (shard_id key : Nat)
    (data : List (Option String)) (bytes : List Byte) (st : LoopState) :
    processFound cfg shard_id key data (some bytes) Option.none ExnSpec.noExn st
      = { st with
          successes := st.successes + 1
          status_dict := st.status_dict.increment "success"
          released := st.released + 1
          writes := st.writes ++ [⟨some bytes,
              compute_key key shard_id cfg.oom_sample_per_shard cfg.oom_shard_count,
              captionOf cfg data,
              cfg.column_list.zip data
                ++ [("key", some (compute_key key shard_id
                      cfg.oom_sample_per_shard cfg.oom_shard_count)),
                    ("status", Option.none), ("error_message", Option.none)]
                ++ (if cfg.compute_md5 then [("md5", (Option.none : Option String))] else [])
                ++ (if cfg.compute_md5 then [("md5", some (cfg.md5Hex bytes))] else [])
                ++ [("status", some "success")]⟩] } := by
  unfold processFound releaseOnly
  cases hm : cfg.compute_md5 <;>
    simp [hm, show (ExnSpec.noExn == ExnSpec.atHash) = false from rfl]

theorem metaGet_e3_key (Z : Meta) (K em : Option String) :
    metaGet (Z ++ [("key", K), ("status", Option.none), ("error_message", em)]) "key"
      = some K := by
  rw [show Z ++ [("key", K), ("status", (Option.none : Option String)), ("error_message", em)]
      = ((Z ++ [("key", K)]) ++ [("status", (Option.none : Option String))])
          ++ [("error_message", em)] by simp]
  rw [metaGet_append_ne _ "error_message" "key" _ (by decide)]
  rw [metaGet_append_ne _ "status" "key" _ (by decide)]
  exact metaGet_append_last Z "key" K

theorem metaGet_e3_err (Z : Meta) (K em : Option String) :
    metaGet (Z ++ [("key", K), ("status", Option.none), ("error_message", em)])
        "error_message" = some em := by
  rw [show Z ++ [("key", K), ("status", (Option.none : Option String)), ("error_message", em)]
      = ((Z ++ [("key", K)]) ++ [("status", (Option.none : Option String))])
          ++ [("error_message", em)] by simp]
  exact metaGet_append_last _ "error_message" em

theorem metaGet_e3_other (Z : Meta) (K em : Option String) (q : String)
    (h1 : q ≠ "key") (h2 : q ≠ "status") (h3 : q ≠ "error_message") :
    metaGet (Z ++ [("key", K), ("status", Option.none), ("error_message", em)]) q
      = metaGet Z q := by
  refine metaGet_append_no_key Z _ q ?_
  intro p hp
  simp only [List.mem_cons, List.not_mem_nil, or_false] at hp
  rcases hp with rfl | rfl | rfl
  · exact fun h => h1 h.symm
  · exact fun h => h2 h.symm
  · exact fun h => h3 h.symm

/-- C7: for a processed record (no per-record exception), the metadata dict
handed to `sample_writer.write` maps every configured column name to the
record's original value at that column and holds
`key = compute_key(local_index, shard_id, ...)`; on a failed fetch the write
gets no content, `status = "failed_to_download"`, `error_message` is the
fetch error, and, with `compute_md5` on, `md5` is `None`; on a successful
fetch the write gets the content, `status = "success"`, `error_message` is
`None`, and, with `compute_md5` on, `md5` is the hex digest of the
downloaded bytes. -/
theorem written_metadata_contract (cfg : ShardConfig)
    (records : List (List (Option String))) (shard_id : Nat) (exn : Nat → ExnSpec)
    (st : LoopState) (key : Nat) (data : List (Option String))
    (hget : records.get? key = some data)
    (hexn : exn key = ExnSpec.noExn)
    (hnd : cfg.column_list.Nodup)
    (hkey : "key" ∉ cfg.column_list) (hstatus : "status" ∉ cfg.column_list)
    (herrm : "error_message" ∉ cfg.column_list) (hmd5c : "md5" ∉ cfg.column_list) :
    (∀ e : String, ∃ w : WriteCall,
      (processRecord cfg records shard_id exn st (key, Option.none, some e)).writes
          = st.writes ++ [w] ∧
      w.content = Option.none ∧
      w.key = compute_key key shard_id cfg.oom_sample_per_shard cfg.oom_shard_count ∧
      metaGet w.meta "key" = some (some (compute_key key shard_id
        cfg.oom_sample_per_shard cfg.oom_shard_count)) ∧
      metaGet w.meta "status" = some (some "failed_to_download") ∧
      metaGet w.meta "error_message" = some (some e) ∧
      (cfg.compute_md5 = true → metaGet w.meta "md5" = some Option.none) ∧
      (∀ i c v, cfg.column_list.get? i = some c → data.get? i = some v →
        metaGet w.meta c = some v)) ∧
    (∀ bytes : List Byte, ∃ w : WriteCall,
      (processRecord cfg records shard_id exn st (key, some bytes, Option.none)).writes
          = st.writes ++ [w] ∧
      w.content = some bytes ∧
      w.key = compute_key key shard_id cfg.oom_sample_per_shard cfg.oom_shard_count ∧
      metaGet w.meta "key" = some (some (compute_key key shard_id
        cfg.oom_sample_per_shard cfg.oom_shard_count)) ∧
      metaGet w.meta "status" = some (some "success") ∧
      metaGet w.meta "error_message" = some Option.none ∧
      (cfg.compute_md5 = true → metaGet w.meta "md5" = some (some (cfg.md5Hex bytes))) ∧
      (∀ i c v, cfg.column_list.get? i = some c → data.get? i = some v →
        metaGet w.meta c = some v)) := by
  have colfact : ∀ c, (∃ i, cfg.column_list.get? i = some c) →
      c ≠ "key" ∧ c ≠ "status" ∧ c ≠ "error_message" ∧ c ≠ "md5" := by
    intro c ⟨i, hi⟩
    have hc : c ∈ cfg.column_list := List.get?_mem hi
    exact ⟨fun h => hkey (h ▸ hc), fun h => hstatus (h ▸ hc),
      fun h => herrm (h ▸ hc), fun h => hmd5c (h ▸ hc)⟩
  constructor
  · intro e
    rw [processRecord_eq_found cfg records shard_id exn st key Option.none (some e)
      data hget hexn]
    rw [processFound_fail_eq]
    refine ⟨_, rfl, rfl, rfl, ?_, ?_, ?_, ?_, ?_⟩
    · -- "key"
      rw [metaGet_append_ne _ "status" "key" _ (by decide)]
      cases hm : cfg.compute_md5 <;> simp only [hm, if_true, if_false, Bool.false_eq_true,
        if_neg (by simp : ¬ (false = true)), List.append_nil]
      · exact metaGet_e3_key _ _ _
      · rw [metaGet_append_ne _ "md5" "key" _ (by decide)]
        exact metaGet_e3_key _ _ _
    · -- "status"
      exact metaGet_append_last _ "status" (some "failed_to_download")
    · -- "error_message"
      rw [metaGet_append_ne _ "status" "error_message" _ (by decide)]
      cases hm : cfg.compute_md5 <;> simp only [hm, if_true, if_false,
        if_neg (by simp : ¬ (false = true)), List.append_nil]
      · exact metaGet_e3_err _ _ _
      · rw [metaGet_append_ne _ "md5" "error_message" _ (by decide)]
        exact metaGet_e3_err _ _ _
    · -- "md5"
      intro hm
      rw [metaGet_append_ne _ "status" "md5" _ (by decide)]
      simp only [hm, if_true]
      exact metaGet_append_last _ "md5" Option.none
    · -- configured columns
      intro i c v hc hv
      obtain ⟨h1, h2, h3, h4⟩ := colfact c ⟨i, hc⟩
      rw [metaGet_append_ne _ "status" c _ (fun h => h2 h.symm)]
      cases hm : cfg.compute_md5 <;> simp only [hm, if_true,
        if_neg (by simp : ¬ (false = true)), List.append_nil]
      · rw [metaGet_e3_other _ _ _ _ h1 h2 h3]
        exact metaGet_zip cfg.column_list data i c v hnd hc hv
      · rw [metaGet_append_ne _ "md5" c _ (fun h => h4 h.symm)]
        rw [metaGet_e3_other _ _ _ _ h1 h2 h3]
        exact metaGet_zip cfg.column_list data i c v hnd hc hv
  · intro bytes
    rw [processRecord_eq_found cfg records shard_id exn st key (some bytes) Option.none
      data hget hexn]
    rw [processFound_success_eq]
    refine ⟨_, rfl, rfl, rfl, ?_, ?_, ?_, ?_, ?_⟩
    · -- "key"
      rw [metaGet_append_ne _ "status" "key" _ (by decide)]
      cases hm : cfg.compute_md5 <;> simp only [hm, if_true,
        if_neg (by simp : ¬ (false = true)), List.append_nil]
      · exact metaGet_e3_key _ _ _
      · rw [metaGet_append_ne _ "md5" "key" _ (by decide)]
        rw [metaGet_append_ne _ "md5" "key" _ (by decide)]
        exact metaGet_e3_key _ _ _
    · -- "status"
      exact metaGet_append_last _ "status" (some "success")
    · -- "error_message"
      rw [metaGet_append_ne _ "status" "error_message" _ (by decide)]
      cases hm : cfg.compute_md5 <;> simp only [hm, if_true,
        if_neg (by simp : ¬ (false = true)), List.append_nil]
      · exact metaGet_e3_err _ _ _
      · rw [metaGet_append_ne _ "md5" "error_message" _ (by decide)]
        rw [metaGet_append_ne _ "md5" "error_message" _ (by decide)]
        exact metaGet_e3_err _ _ _
    · -- "md5"
      intro hm
      rw [metaGet_append_ne _ "status" "md5" _ (by decide)]
      simp only [hm, if_true]
      exact metaGet_append_last _ "md5" (some (cfg.md5Hex bytes))
    · -- configured columns
      intro i c v hc hv
      obtain ⟨h1, h2, h3, h4⟩ := colfact c ⟨i, hc⟩
      rw [metaGet_append_ne _ "status" c _ (fun h => h2 h.symm)]
      cases hm : cfg.compute_md5 <;> simp only [hm, if_true,
        if_neg (by simp : ¬ (false = true)), List.append_nil]
      · rw [metaGet_e3_other _ _ _ _ h1 h2 h3]
        exact metaGet_zip cfg.column_list data i c v hnd hc hv
      · rw [metaGet_append_ne _ "md5" c _ (fun h => h4 h.symm)]
        rw [metaGet_append_ne _ "md5" c _ (fun h => h4 h.symm)]
        rw [metaGet_e3_other _ _ _ _ h1 h2 h3]
        exact metaGet_zip cfg.column_list data i c v hnd hc hv

/-- C7, witness: the failed-fetch write of a concrete record under `cfgW`. -/
theorem written_metadata_contract_witness :
    ∃ w : WriteCall,
      (processRecord cfgW recordsW 7 exnNone (initState 2)
          (0, Option.none, some "boom")).writes = (initState 2).writes ++ [w] ∧
      w.content = Option.none ∧
      w.key = compute_key 0 7 cfgW.oom_sample_per_shard cfgW.oom_shard_count ∧
      metaGet w.meta "key" = some (some (compute_key 0 7
        cfgW.oom_sample_per_shard cfgW.oom_shard_count)) ∧
      metaGet w.meta "status" = some (some "failed_to_download") ∧
      metaGet w.meta "error_message" = some (some "boom") ∧
      (cfgW.compute_md5 = true → metaGet w.meta "md5" = some Option.none) ∧
      (∀ i c v, cfgW.column_list.get? i = some c →
        [some "u0", some "c0"].get? i = some v → metaGet w.meta c = some v) :=
  (written_metadata_contract cfgW recordsW 7 exnNone (initState 2) 0
    [some "u0", some "c0"] rfl rfl (by decide) (by decide) (by decide)
    (by decide) (by decide)).1 "boom"

/-- C10: a successful HTTP response with an empty body is classified as a
success, not a failure: `download_pdf` returns an (empty) content stream with
no error, `download_pdf_with_retry` does not retry it (a single call, for any
retry budget), and the consuming loop counts the record among the successes
with `status = "success"` and passes the empty content to `writer.write` —
payload non-emptiness is never checked. -/
theorem empty_payload_success (cfg : ShardConfig)
    (records : List (List (Option String))) (shard_id : Nat) (exn : Nat → ExnSpec)
    (st : LoopState) (key : Nat) (data : List (Option String))
    (hget : records.get? key = some data) (hexn : exn key = ExnSpec.noExn) :
    download_pdf key (Except.ok []) = (key, some [], Option.none) ∧
    (∀ retries, download_pdf_with_retry key (fun _ => Except.ok []) retries
        = ((key, some [], Option.none), 1)) ∧
    (processRecord cfg records shard_id exn st (key, some [], Option.none)).successes
        = st.successes + 1 ∧
    (∃ w, (processRecord cfg records shard_id exn st (key, some [], Option.none)).writes
        = st.writes ++ [w] ∧ w.content = some [] ∧
        metaGet w.meta "status" = some (some "success")) := by
  refine ⟨rfl, ?_, ?_, ?_⟩
  · intro retries
    cases retries with
    | zero => rfl
    | succ n => rfl
  · rw [processRecord_eq_found cfg records shard_id exn st key (some []) Option.none
      data hget hexn, processFound_success_eq]
  · rw [processRecord_eq_found cfg records shard_id exn st key (some []) Option.none
      data hget hexn, processFound_success_eq]
    exact ⟨_, rfl, rfl, metaGet_append_last _ "status" (some "success")⟩

/-- C10, witness: the empty-body fetch of a concrete record under `cfgW`. -/
theorem empty_payload_success_witness :
    download_pdf 0 (Except.ok []) = (0, some [], Option.none) ∧
    (processRecord cfgW recordsW 0 exnNone (initState 2) (0, some [], Option.none)).successes
      = (initState 2).successes + 1 := by
  have h := empty_payload_success cfgW recordsW 0 exnNone (initState 2) 0
    [some "u0", some "c0"] rfl rfl
  exact ⟨h.1, h.2.2.1⟩

end PdfDataset
